import Mathlib

/- Shallow embedding of the procedural scene populator of
`src/ascii-background.js` (class `AsciiBackground`).

Modelling conventions:
* JS numbers are embedded as rationals (`ℚ`); all constants of the populator
  (300, 150, 100, 0.3, 1.2, 0.05, 8, ...) are exactly representable.
* `Math.sin` and `Math.PI` are transcendental; the embedding is parametrised
  by a `JsMath` record carrying an arbitrary `sin : ℚ → ℚ` and `pi : ℚ`.
  No claim depends on the value of `sin` beyond `|sin t| ≤ 1` where stated.
* `camera.position.distanceTo p` is `Real.sqrt (distSq ...)`; every use in the
  populator is a comparison `distance ⋚ c` with `c ≥ 0`, which is embedded as
  the equivalent square comparison `distSq ⋚ c ^ 2`.
* `Math.round x` is `⌊x + 1/2⌋` (JS rounds halves toward +∞), `Math.floor` is
  `Int.floor`, `Math.ceil` is `Int.ceil`.
* `this.loadedAetherytes` is a JS `Map` keyed by the string `"x,y,z"`; the
  string encoding of an integer triple is injective, so the embedding keys
  directly by the triple (`GridPos`).  The `Map` is an association list in
  insertion order: `set` on an absent key appends, `delete` erases the entry
  with the key.  `this.distantStars` is a JS array of meshes; it is embedded
  as a list of `Star` records (`findIndex`/`splice` erase the first match).
* `isInViewFrustum` recomputes the camera frustum from the camera matrices
  via Three.js library calls and tests `frustum.containsPoint`; the camera
  (library state) is embedded abstractly as a position plus a containment
  predicate `frustum : Vec3 → Bool`, supplied per tick.
* Purely cosmetic mesh state that no claim mentions (colors, scale/opacity
  fade-in, geometry) is not carried in the records; the fields that the
  populator and the cited animation lines read (`gridKey`,
  `originalPosition`, `position`, `drift`, `rotation`, `time`) are.
-/

namespace Aetherytes

/-- A 3-component vector of rationals, standing for a `THREE.Vector3`. -/
structure Vec3 where
  x : ℚ
  y : ℚ
  z : ℚ
deriving DecidableEq, Repr

/-- An integer lattice cell `{x, y, z}` as produced by `getGridPosition`. -/
structure GridPos where
  x : ℤ
  y : ℤ
  z : ℤ
deriving DecidableEq, Repr

/-- The abstract mathematical primitives the JS code takes from `Math`. -/
structure JsMath where
  sin : ℚ → ℚ
  pi : ℚ

/-- JS `Math.round` (halves round toward +∞). -/
def jsRound (q : ℚ) : ℤ := ⌊q + 1 / 2⌋

/-- Squared Euclidean distance; `p.distanceTo q` is its square root. -/
def distSq (p q : Vec3) : ℚ :=
  (p.x - q.x) ^ 2 + (p.y - q.y) ^ 2 + (p.z - q.z) ^ 2

/-- The per-cell drift parameters stored in `aetheryte.userData.drift`. -/
structure Drift where
  dx : ℚ
  dy : ℚ
  dz : ℚ
  rotX : ℚ
  rotY : ℚ
  rotZ : ℚ
deriving DecidableEq, Repr

/-- A distant stand-in (`createDistantStar` mesh plus its `userData`). -/
structure Star where
  gridKey : GridPos
  position : Vec3
  originalPosition : Vec3
deriving DecidableEq, Repr

/-- A detailed representation (`createAetheryte` group plus its `userData`). -/
structure Aetheryte where
  gridKey : GridPos
  position : Vec3
  originalPosition : Vec3
  rotation : Vec3
  drift : Drift
  time : ℚ
deriving DecidableEq, Repr

/-- The fields of the `AsciiBackground` instance that the populator reads or
writes: the four generation settings (set in the constructor and never
reassigned), the frame counter, and the two object collections. -/
structure State where
  renderDistance : ℚ
  detailDistance : ℚ
  gridSize : ℚ
  aetheryteChance : ℚ
  frameCount : ℕ
  loadedAetherytes : List (GridPos × Aetheryte)
  distantStars : List Star
deriving DecidableEq, Repr

/-- The camera as the populator sees it: a position and the frustum
containment test (`isInViewFrustum`, whose body is Three.js matrix code). -/
structure Camera where
  position : Vec3
  frustum : Vec3 → Bool

/-- `seededRandom(x, y, z)`: hash the key, feed it to `Math.sin`, scale, and
take the fractional part. -/
def seededRandom (m : JsMath) (x y z : ℤ) : ℚ :=
  let seed : ℚ := (x : ℚ) * 374761393 + (y : ℚ) * 668265263 + (z : ℚ) * 1274126177
  let t : ℚ := m.sin seed * 43758.5453
  t - ⌊t⌋

/-- `getGridPosition(worldPos)`: round each coordinate to the nearest lattice
multiple of `gridSize`. -/
def getGridPosition (s : State) (worldPos : Vec3) : GridPos :=
  { x := jsRound (worldPos.x / s.gridSize)
    y := jsRound (worldPos.y / s.gridSize)
    z := jsRound (worldPos.z / s.gridSize) }

/-- `gridToWorld(gridPos)`: lattice point plus a seeded jitter of
`(seededRandom - 0.5) * 20` per axis. -/
def gridToWorld (m : JsMath) (s : State) (g : GridPos) : Vec3 :=
  { x := (g.x : ℚ) * s.gridSize + (seededRandom m g.x g.y g.z - 0.5) * 20
    y := (g.y : ℚ) * s.gridSize + (seededRandom m g.y g.z g.x - 0.5) * 20
    z := (g.z : ℚ) * s.gridSize + (seededRandom m g.z g.x g.y - 0.5) * 20 }

/-- `shouldHaveAetheryte(gridPos)`: the deterministic placement gate. -/
def shouldHaveAetheryte (m : JsMath) (s : State) (g : GridPos) : Bool :=
  decide (seededRandom m g.x g.y g.z < s.aetheryteChance)

/-- `loadedAetherytes.has(key)` on the association list. -/
def aethHas (l : List (GridPos × Aetheryte)) (k : GridPos) : Bool :=
  l.any (fun e => e.1 = k)

/-- `loadedAetherytes.delete(key)` on the association list. -/
def aethDelete (l : List (GridPos × Aetheryte)) (k : GridPos) : List (GridPos × Aetheryte) :=
  l.eraseP (fun e => e.1 = k)

/-- `distantStars.find(s => s.userData.gridKey === key)` as a Boolean test. -/
def starHas (l : List Star) (k : GridPos) : Bool :=
  l.any (fun st => st.gridKey = k)

/-- The `findIndex`/`splice(index, 1)` pair: remove the first star whose
`gridKey` matches. -/
def starRemoveFirst (l : List Star) (k : GridPos) : List Star :=
  l.eraseP (fun st => st.gridKey = k)

/-- The star built by `createDistantStar(position)` for a grid cell, with the
`userData` fields set by the callers. -/
def mkStar (k : GridPos) (pos : Vec3) : Star :=
  { gridKey := k, position := pos, originalPosition := pos }

/-- The aetheryte built in the upgrade branch of `updateProceduralAetherytes`:
position, stored original position, seeded rotation and drift, zero time. -/
def mkAetheryte (m : JsMath) (g : GridPos) (worldPos : Vec3) : Aetheryte :=
  { gridKey := g
    position := worldPos
    originalPosition := worldPos
    rotation :=
      { x := seededRandom m g.x g.y g.z * m.pi * 2
        y := seededRandom m g.y g.z g.x * m.pi * 2
        z := seededRandom m g.z g.x g.y * m.pi * 2 }
    drift :=
      { dx := (seededRandom m (g.x + 1) g.y g.z - 0.5) * 0.005
        dy := (seededRandom m g.x (g.y + 1) g.z - 0.5) * 0.005
        dz := (seededRandom m g.x g.y (g.z + 1) - 0.5) * 0.005
        rotX := (seededRandom m (g.x + 2) g.y g.z - 0.5) * 0.01
        rotY := (seededRandom m g.x (g.y + 2) g.z - 0.5) * 0.01
        rotZ := (seededRandom m g.x g.y (g.z + 2) - 0.5) * 0.01 }
    time := 0 }

/-- The integers from `lo` to `hi` inclusive (a JS `for` loop range). -/
def intRange (lo hi : ℤ) : List ℤ :=
  (List.range (hi + 1 - lo).toNat).map (fun i => lo + (i : ℤ))

/-- The triple loop of `updateProceduralAetherytes`: all cells within
Chebyshev radius `r` of `c`, in loop order. -/
def cubeCells (c : GridPos) (r : ℤ) : List GridPos :=
  (intRange (c.x - r) (c.x + r)).flatMap (fun x =>
    (intRange (c.y - r) (c.y + r)).flatMap (fun y =>
      (intRange (c.z - r) (c.z + r)).map (fun z => ⟨x, y, z⟩)))

/-- The body of the triple loop in `updateProceduralAetherytes` for one
candidate cell `g` (lines 902–971): placement gate, render-distance test,
frustum test, then upgrade-or-star instantiation.  (`worldPos` and
`distance` are loop-local constants in the JS; they are inlined here.) -/
def processCell (m : JsMath) (cam : Camera) (s : State) (g : GridPos) : State :=
  if shouldHaveAetheryte m s g = true then
    -- JS: `if (distance > this.renderDistance) continue;`
    if distSq cam.position (gridToWorld m s g) ≤ s.renderDistance ^ 2 then
      -- JS: `if (!this.isInViewFrustum(worldPosVector)) continue;`
      if cam.frustum (gridToWorld m s g) = true then
        -- JS: `if (distance < this.detailDistance)`
        if distSq cam.position (gridToWorld m s g) < s.detailDistance ^ 2 then
          if aethHas s.loadedAetherytes g = true then s
          else
            { s with
              loadedAetherytes :=
                s.loadedAetherytes ++ [(g, mkAetheryte m g (gridToWorld m s g))]
              distantStars := starRemoveFirst s.distantStars g }
        else
          if aethHas s.loadedAetherytes g = false ∧ starHas s.distantStars g = false then
            { s with distantStars := s.distantStars ++ [mkStar g (gridToWorld m s g)] }
          else s
      else s
    else s
  else s

/-- The star created in the downgrade branch of `cleanupDistantObjects`: it is
placed at, and remembers, the aetheryte's original position. -/
def downgradeStar (a : Aetheryte) (k : GridPos) : Star :=
  { gridKey := k
    position := a.originalPosition
    originalPosition := a.originalPosition }

/-- The body of the `for (const [key, aetheryte] of ...)` loop in
`cleanupDistantObjects`, acting on the (map, star list) pair: delete the
entry when beyond `renderDistance * 1.2`, delete it and push a replacement
star when beyond `detailDistance * 1.2`, otherwise leave it.  `rD`/`dD` are
`this.renderDistance`/`this.detailDistance` (never reassigned). -/
def cleanupStep (cam : Camera) (rD dD : ℚ)
    (acc : List (GridPos × Aetheryte) × List Star) (e : GridPos × Aetheryte) :
    List (GridPos × Aetheryte) × List Star :=
  if (rD * 1.2) ^ 2 < distSq cam.position e.2.originalPosition then
    (aethDelete acc.1 e.1, acc.2)
  else if (dD * 1.2) ^ 2 < distSq cam.position e.2.originalPosition then
    (aethDelete acc.1 e.1, acc.2 ++ [downgradeStar e.2 e.1])
  else acc

/-- `cleanupDistantObjects`: walk the loaded aetherytes removing the ones
beyond `renderDistance * 1.2` and downgrading the ones beyond
`detailDistance * 1.2` (pushing a replacement star), then filter out every
star beyond `renderDistance * 1.2`.  The walk is a fold of `cleanupStep`
over the entries (a JS `Map` iterates entries in insertion order, and
deleting the entry under iteration is well-defined).  The JS function also
receives `camGridPos` and `checkRadius` but reads neither.  Every object
created by this file's code sets `userData.originalPosition`, so the JS
truthiness guards on that field are always taken. -/
def cleanupDistantObjects (cam : Camera) (s : State) : State :=
  { s with
    loadedAetherytes :=
      (s.loadedAetherytes.foldl (cleanupStep cam s.renderDistance s.detailDistance)
        (s.loadedAetherytes, s.distantStars)).1
    distantStars :=
      (s.loadedAetherytes.foldl (cleanupStep cam s.renderDistance s.detailDistance)
        (s.loadedAetherytes, s.distantStars)).2.filter
        (fun st => !((s.renderDistance * 1.2) ^ 2 < distSq cam.position st.originalPosition)) }

/-- `updateProceduralAetherytes`: increment the frame counter, return unless
it is a multiple of 10, otherwise process every cell in the cube of radius
`ceil(renderDistance / gridSize)` around the camera's grid cell and then run
the cleanup sweep.  (The JS locals `camGridPos`/`checkRadius` are inlined;
the increment is applied up front exactly as `this.frameCount++` is.) -/
def updateProceduralAetherytes (m : JsMath) (cam : Camera) (s0 : State) : State :=
  if (s0.frameCount + 1) % 10 ≠ 0 then { s0 with frameCount := s0.frameCount + 1 }
  else
    cleanupDistantObjects cam
      ((cubeCells (getGridPosition { s0 with frameCount := s0.frameCount + 1 } cam.position)
          ⌈s0.renderDistance / s0.gridSize⌉).foldl (processCell m cam)
        { s0 with frameCount := s0.frameCount + 1 })

/-- The per-aetheryte animation step (`animate`, lines 1602–1616): advance
`time`, oscillate the position around the original by `sin(...) * 8` per
axis, and advance the rotation by the drift. -/
def animateAetheryte (m : JsMath) (a : Aetheryte) : Aetheryte :=
  let t := a.time + 0.05
  { a with
    time := t
    position :=
      { x := a.originalPosition.x + m.sin (t * a.drift.dx * 100) * 8
        y := a.originalPosition.y + m.sin (t * a.drift.dy * 100 + 1) * 8
        z := a.originalPosition.z + m.sin (t * a.drift.dz * 100 + 2) * 8 }
    rotation :=
      { x := a.rotation.x + a.drift.rotX
        y := a.rotation.y + a.drift.rotY
        z := a.rotation.z + a.drift.rotZ } }

/-- The slice of the per-frame `animate` callback that touches the populator
state: the oscillation/rotation pass over `loadedAetherytes`.  (The star
twinkle pass only writes material opacities.) -/
def animateObjects (m : JsMath) (s : State) : State :=
  { s with
    loadedAetherytes := s.loadedAetherytes.map (fun e => (e.1, animateAetheryte m e.2)) }

/-- The populator state set up by the `AsciiBackground` constructor. -/
def initState : State :=
  { renderDistance := 300
    detailDistance := 150
    gridSize := 100
    aetheryteChance := 0.3
    frameCount := 0
    loadedAetherytes := []
    distantStars := [] }

/-- One scheduler-driven step of the system: either a generation tick (from
`animate` via `updateProceduralAetherytes`, or the initial call in `init`),
with whatever camera pose the frame has, or the per-frame object animation
pass. -/
def Step (m : JsMath) (s s' : State) : Prop :=
  (∃ cam, s' = updateProceduralAetherytes m cam s) ∨ s' = animateObjects m s

/-- No key is present in both collections: every loaded aetheryte entry's key
is absent from the distant-star list. -/
def exclusion (s : State) : Prop :=
  ∀ e ∈ s.loadedAetherytes, starHas s.distantStars e.1 = false

/-- Well-formedness maintained by the populator: the aetheryte map has
distinct keys (a JS `Map` cannot hold duplicates), the star list has distinct
keys, and no key has both representations. -/
def Inv (s : State) : Prop :=
  (s.loadedAetherytes.map Prod.fst).Nodup ∧
    (s.distantStars.map Star.gridKey).Nodup ∧ exclusion s

/-- The generation settings of a state, as a tuple (they are written only by
the constructor). -/
def config (s : State) : ℚ × ℚ × ℚ × ℚ :=
  (s.renderDistance, s.detailDistance, s.gridSize, s.aetheryteChance)

/-- A degenerate `JsMath` (`sin = 0`) used to instantiate theorems on
concrete inputs. -/
def mZero : JsMath := { sin := fun _ => 0, pi := 0 }

/-- A camera at the origin that reports every point visible. -/
def cam0 : Camera := { position := ⟨0, 0, 0⟩, frustum := fun _ => true }

/-- A camera at the origin whose frustum test rejects every point. -/
def camBlind : Camera := { position := ⟨0, 0, 0⟩, frustum := fun _ => false }

/-- Characterization of `cleanupStep`: the entry survives the walk iff it is
within both hysteresis radii. -/
def aethKeep (cam : Camera) (rD dD : ℚ) (e : GridPos × Aetheryte) : Bool :=
  !((rD * 1.2) ^ 2 < distSq cam.position e.2.originalPosition) &&
    !((dD * 1.2) ^ 2 < distSq cam.position e.2.originalPosition)

/-- Characterization of `cleanupStep`: the replacement star the walk pushes
for the entry, if any. -/
def aethDowngrade (cam : Camera) (rD dD : ℚ) (e : GridPos × Aetheryte) : Option Star :=
  if (rD * 1.2) ^ 2 < distSq cam.position e.2.originalPosition then none
  else if (dD * 1.2) ^ 2 < distSq cam.position e.2.originalPosition then
    some (downgradeStar e.2 e.1)
  else none

/-- The generation settings agree between two states (they are written only
in the constructor, so every populator operation preserves them). -/
def sameSettings (s₀ s₁ : State) : Prop :=
  s₁.renderDistance = s₀.renderDistance ∧ s₁.detailDistance = s₀.detailDistance ∧
    s₁.gridSize = s₀.gridSize ∧ s₁.aetheryteChance = s₀.aetheryteChance

/-- A sample detailed object sitting at the origin cell, for instantiating
theorems on concrete inputs. -/
def aSample : Aetheryte :=
  { gridKey := ⟨0, 0, 0⟩
    position := ⟨0, 0, 0⟩
    originalPosition := ⟨0, 0, 0⟩
    rotation := ⟨0, 0, 0⟩
    drift := ⟨0, 0, 0, 0, 0, 0⟩
    time := 0 }

/-- A distant star whose placement is far outside the release radius of a
camera at the origin. -/
def farStar : Star :=
  { gridKey := ⟨10, 0, 0⟩, position := ⟨1000, 0, 0⟩, originalPosition := ⟨1000, 0, 0⟩ }

/-- Initial state carrying one distant star far beyond `renderDistance * 1.2`
of the origin, about to run a throttled (skipped) tick. -/
def sFarStar : State := { initState with distantStars := [farStar] }

/-- Initial state one frame before an unthrottled tick. -/
def s9 : State := { initState with frameCount := 9 }

/-- Initial state holding the sample detailed object. -/
def sWithA : State := { initState with loadedAetherytes := [(⟨0, 0, 0⟩, aSample)] }

instance (s : State) : Decidable (exclusion s) := by
  unfold exclusion; infer_instance

instance (s₀ s₁ : State) : Decidable (sameSettings s₀ s₁) := by
  unfold sameSettings; infer_instance

instance (s : State) : Decidable (Inv s) := by
  unfold Inv; infer_instance

/-! ### Basic facts about the key-indexed collections -/

@[simp] theorem aethHas_nil (k : GridPos) : aethHas [] k = false := rfl

@[simp] theorem aethHas_cons (e : GridPos × Aetheryte) (t : List (GridPos × Aetheryte))
    (k : GridPos) : aethHas (e :: t) k = (decide (e.1 = k) || aethHas t k) := by
  simp [aethHas]

@[simp] theorem aethHas_append (l₁ l₂ : List (GridPos × Aetheryte)) (k : GridPos) :
    aethHas (l₁ ++ l₂) k = (aethHas l₁ k || aethHas l₂ k) := by
  simp [aethHas]

@[simp] theorem starHas_nil (k : GridPos) : starHas [] k = false := rfl

@[simp] theorem starHas_cons (st : Star) (t : List Star) (k : GridPos) :
    starHas (st :: t) k = (decide (st.gridKey = k) || starHas t k) := by
  simp [starHas]

@[simp] theorem starHas_append (l₁ l₂ : List Star) (k : GridPos) :
    starHas (l₁ ++ l₂) k = (starHas l₁ k || starHas l₂ k) := by
  simp [starHas]

theorem aethHas_iff (l : List (GridPos × Aetheryte)) (k : GridPos) :
    aethHas l k = true ↔ k ∈ l.map Prod.fst := by
  simp [aethHas, List.any_eq_true, List.mem_map]

theorem aethHas_eq_false (l : List (GridPos × Aetheryte)) (k : GridPos) :
    aethHas l k = false ↔ k ∉ l.map Prod.fst := by
  rw [Bool.eq_false_iff]
  exact not_congr (aethHas_iff l k)

theorem aethHas_of_mem {l : List (GridPos × Aetheryte)} {k : GridPos} {a : Aetheryte}
    (h : (k, a) ∈ l) : aethHas l k = true :=
  (aethHas_iff l k).2 (List.mem_map.2 ⟨(k, a), h, rfl⟩)

theorem starHas_iff (l : List Star) (k : GridPos) :
    starHas l k = true ↔ k ∈ l.map Star.gridKey := by
  simp [starHas, List.any_eq_true, List.mem_map]

theorem starHas_eq_false (l : List Star) (k : GridPos) :
    starHas l k = false ↔ k ∉ l.map Star.gridKey := by
  rw [Bool.eq_false_iff]
  exact not_congr (starHas_iff l k)

theorem starHas_removeFirst_false {l : List Star} {k : GridPos} (c : GridPos)
    (h : starHas l k = false) : starHas (starRemoveFirst l c) k = false := by
  rw [starHas_eq_false] at h ⊢
  intro hk
  obtain ⟨st, hst, hkey⟩ := List.mem_map.1 hk
  exact h (List.mem_map.2 ⟨st, List.mem_of_mem_eraseP hst, hkey⟩)

theorem star_mem_removeFirst {l : List Star} {st : Star} {c : GridPos}
    (h : st ∈ l) (hne : st.gridKey ≠ c) : st ∈ starRemoveFirst l c := by
  refine (List.mem_eraseP_of_neg ?_).2 h
  simp [hne]

theorem starHas_removeFirst_self (l : List Star) (k : GridPos)
    (h : (l.map Star.gridKey).Nodup) : starHas (starRemoveFirst l k) k = false := by
  induction l with
  | nil => rfl
  | cons st t ih =>
    rw [List.map_cons, List.nodup_cons] at h
    by_cases hk : st.gridKey = k
    · unfold starRemoveFirst
      rw [List.eraseP_cons_of_pos (by simp [hk])]
      rw [starHas_eq_false, ← hk]
      exact h.1
    · unfold starRemoveFirst
      rw [List.eraseP_cons_of_neg (by simp [hk])]
      have := ih h.2
      unfold starRemoveFirst at this
      simp [hk, this]

theorem star_keys_removeFirst_nodup {l : List Star} (c : GridPos)
    (h : (l.map Star.gridKey).Nodup) :
    ((starRemoveFirst l c).map Star.gridKey).Nodup :=
  h.sublist ((List.eraseP_sublist l).map Star.gridKey)

/-! ### The seeded pseudo-random generator lands in `[0, 1)` -/

theorem seededRandom_nonneg (m : JsMath) (x y z : ℤ) : 0 ≤ seededRandom m x y z := by
  unfold seededRandom
  rw [Int.self_sub_floor]
  exact Int.fract_nonneg _

theorem seededRandom_lt_one (m : JsMath) (x y z : ℤ) : seededRandom m x y z < 1 := by
  unfold seededRandom
  rw [Int.self_sub_floor]
  exact Int.fract_lt_one _

theorem jitter_bounds (m : JsMath) (x y z : ℤ) :
    -10 ≤ (seededRandom m x y z - 0.5) * 20 ∧ (seededRandom m x y z - 0.5) * 20 < 10 := by
  have h0 := seededRandom_nonneg m x y z
  have h1 := seededRandom_lt_one m x y z
  norm_num
  constructor <;> nlinarith

/-- Rounding a jittered lattice coordinate at spacing 100 recovers the
lattice index, as long as the jitter stays within `[-10, 10)`. -/
theorem jsRound_grid (gi : ℤ) (j : ℚ) (h₀ : -10 ≤ j) (h₁ : j < 10) :
    jsRound (((gi : ℚ) * 100 + j) / 100) = gi := by
  unfold jsRound
  have he : ((gi : ℚ) * 100 + j) / 100 + 1 / 2 = (gi : ℚ) + (j / 100 + 1 / 2) := by ring
  rw [he, Int.floor_int_add]
  have hz : ⌊j / 100 + 1 / 2⌋ = 0 := by
    rw [Int.floor_eq_zero_iff, Set.mem_Ico]
    constructor <;> linarith
  rw [hz, add_zero]

/-! ### Structure of a single `processCell` step -/

theorem processCell_shape (m : JsMath) (cam : Camera) (s : State) (g : GridPos) :
    ∃ L D, processCell m cam s g = { s with loadedAetherytes := L, distantStars := D } := by
  unfold processCell
  split_ifs <;> exact ⟨_, _, rfl⟩

theorem sameSettings_refl (s : State) : sameSettings s s := ⟨rfl, rfl, rfl, rfl⟩

theorem sameSettings_trans {a b c : State} (h₁ : sameSettings a b) (h₂ : sameSettings b c) :
    sameSettings a c :=
  ⟨h₂.1.trans h₁.1, h₂.2.1.trans h₁.2.1, h₂.2.2.1.trans h₁.2.2.1, h₂.2.2.2.trans h₁.2.2.2⟩

theorem processCell_sameSettings (m : JsMath) (cam : Camera) (s : State) (g : GridPos) :
    sameSettings s (processCell m cam s g) := by
  obtain ⟨L, D, h⟩ := processCell_shape m cam s g
  rw [h]; exact ⟨rfl, rfl, rfl, rfl⟩

theorem processCell_frameCount (m : JsMath) (cam : Camera) (s : State) (g : GridPos) :
    (processCell m cam s g).frameCount = s.frameCount := by
  obtain ⟨L, D, h⟩ := processCell_shape m cam s g
  rw [h]

theorem gridToWorld_congr (m : JsMath) {s₀ s₁ : State} (h : s₁.gridSize = s₀.gridSize)
    (g : GridPos) : gridToWorld m s₁ g = gridToWorld m s₀ g := by
  simp [gridToWorld, h]

theorem shouldHave_congr (m : JsMath) {s₀ s₁ : State}
    (h : s₁.aetheryteChance = s₀.aetheryteChance) (g : GridPos) :
    shouldHaveAetheryte m s₁ g = shouldHaveAetheryte m s₀ g := by
  simp [shouldHaveAetheryte, h]

/-- Case analysis on one `processCell` step: it either leaves the state
unchanged, creates the detailed representation (recording the branch
conditions), or creates a distant stand-in. -/
theorem processCell_cases (m : JsMath) (cam : Camera) (s : State) (g : GridPos) :
    processCell m cam s g = s ∨
    (aethHas s.loadedAetherytes g = false ∧
      shouldHaveAetheryte m s g = true ∧
      distSq cam.position (gridToWorld m s g) ≤ s.renderDistance ^ 2 ∧
      cam.frustum (gridToWorld m s g) = true ∧
      distSq cam.position (gridToWorld m s g) < s.detailDistance ^ 2 ∧
      processCell m cam s g =
        { s with
          loadedAetherytes :=
            s.loadedAetherytes ++ [(g, mkAetheryte m g (gridToWorld m s g))]
          distantStars := starRemoveFirst s.distantStars g }) ∨
    (aethHas s.loadedAetherytes g = false ∧ starHas s.distantStars g = false ∧
      shouldHaveAetheryte m s g = true ∧
      distSq cam.position (gridToWorld m s g) ≤ s.renderDistance ^ 2 ∧
      cam.frustum (gridToWorld m s g) = true ∧
      s.detailDistance ^ 2 ≤ distSq cam.position (gridToWorld m s g) ∧
      processCell m cam s g =
        { s with distantStars := s.distantStars ++ [mkStar g (gridToWorld m s g)] }) := by
  by_cases h1 : shouldHaveAetheryte m s g = true
  case neg => left; simp [processCell, h1]
  by_cases h2 : distSq cam.position (gridToWorld m s g) ≤ s.renderDistance ^ 2
  case neg => left; simp [processCell, h1, h2]
  by_cases h3 : cam.frustum (gridToWorld m s g) = true
  case neg => left; simp [processCell, h1, h2, h3]
  by_cases h4 : distSq cam.position (gridToWorld m s g) < s.detailDistance ^ 2
  · by_cases h5 : aethHas s.loadedAetherytes g = true
    · left; simp [processCell, h1, h2, h3, h4, h5]
    · right; left
      refine ⟨by simpa using h5, h1, h2, h3, h4, ?_⟩
      simp [processCell, h1, h2, h3, h4, h5]
  · by_cases h6 : aethHas s.loadedAetherytes g = false ∧ starHas s.distantStars g = false
    · right; right
      refine ⟨h6.1, h6.2, h1, h2, h3, le_of_not_lt h4, ?_⟩
      simp [processCell, h1, h2, h3, h4, h6]
    · left; simp [processCell, h1, h2, h3, h4, h6]

/-- Under the exact guards of the upgrade branch, `processCell` creates the
detailed representation and splices out the stand-in. -/
theorem processCell_create_aeth (m : JsMath) (cam : Camera) (s : State) (g : GridPos)
    (h1 : shouldHaveAetheryte m s g = true)
    (h2 : distSq cam.position (gridToWorld m s g) ≤ s.renderDistance ^ 2)
    (h3 : cam.frustum (gridToWorld m s g) = true)
    (h4 : distSq cam.position (gridToWorld m s g) < s.detailDistance ^ 2)
    (h5 : aethHas s.loadedAetherytes g = false) :
    processCell m cam s g =
      { s with
        loadedAetherytes :=
          s.loadedAetherytes ++ [(g, mkAetheryte m g (gridToWorld m s g))]
        distantStars := starRemoveFirst s.distantStars g } := by
  simp [processCell, h1, h2, h3, h4, h5]

/-- Under the exact guards of the stand-in branch, `processCell` creates the
distant star. -/
theorem processCell_create_star (m : JsMath) (cam : Camera) (s : State) (g : GridPos)
    (h1 : shouldHaveAetheryte m s g = true)
    (h2 : distSq cam.position (gridToWorld m s g) ≤ s.renderDistance ^ 2)
    (h3 : cam.frustum (gridToWorld m s g) = true)
    (h4 : ¬distSq cam.position (gridToWorld m s g) < s.detailDistance ^ 2)
    (h5 : aethHas s.loadedAetherytes g = false)
    (h6 : starHas s.distantStars g = false) :
    processCell m cam s g =
      { s with distantStars := s.distantStars ++ [mkStar g (gridToWorld m s g)] } := by
  simp [processCell, h1, h2, h3, h4, h5, h6]

/-! ### Preservation properties of `processCell` and its fold -/

theorem processCell_inv (m : JsMath) (cam : Camera) (s : State) (g : GridPos)
    (h : Inv s) : Inv (processCell m cam s g) := by
  unfold Inv exclusion at h ⊢
  obtain ⟨hA, hS, hE⟩ := h
  rcases processCell_cases m cam s g with hc | ⟨h5, _, _, _, _, hc⟩ |
      ⟨h5, h6, _, _, _, _, hc⟩
  · rw [hc]; exact ⟨hA, hS, hE⟩
  · rw [hc]
    refine ⟨?_, star_keys_removeFirst_nodup g hS, ?_⟩
    · rw [List.map_append]
      refine List.Nodup.append hA (by simp) ?_
      rw [aethHas_eq_false] at h5
      intro x hx hxg
      simp only [List.map_cons, List.map_nil, List.mem_singleton] at hxg
      subst hxg
      exact h5 hx
    · intro e he
      rw [List.mem_append] at he
      rcases he with he | he
      · exact starHas_removeFirst_false g (hE e he)
      · rw [List.mem_singleton] at he
        rw [he]
        exact starHas_removeFirst_self _ _ hS
  · rw [hc]
    refine ⟨hA, ?_, ?_⟩
    · rw [List.map_append]
      refine List.Nodup.append hS (by simp) ?_
      rw [starHas_eq_false] at h6
      intro x hx hxg
      simp only [List.map_cons, List.map_nil, List.mem_singleton, mkStar] at hxg
      subst hxg
      exact h6 hx
    · intro e he
      have hkey : e.1 ≠ g := by
        rw [aethHas_eq_false] at h5
        intro hk
        exact h5 (hk ▸ List.mem_map.2 ⟨e, he, rfl⟩)
      rw [starHas_append]
      simp [hE e he, mkStar, Ne.symm hkey]

theorem processCell_loaded_mem (m : JsMath) (cam : Camera) (s : State) (g : GridPos)
    {e : GridPos × Aetheryte} (h : e ∈ s.loadedAetherytes) :
    e ∈ (processCell m cam s g).loadedAetherytes := by
  rcases processCell_cases m cam s g with hc | ⟨_, _, _, _, _, hc⟩ |
      ⟨_, _, _, _, _, _, hc⟩ <;> rw [hc]
  · exact h
  · exact List.mem_append_left _ h
  · exact h

/-- Once a cell has its detailed representation and no stand-in, no later
`processCell` step of the same tick disturbs that. -/
theorem processCell_stable (m : JsMath) (cam : Camera) (s : State) {g : GridPos}
    {a : Aetheryte} (c : GridPos) (hmem : (g, a) ∈ s.loadedAetherytes)
    (hstar : starHas s.distantStars g = false) :
    (g, a) ∈ (processCell m cam s c).loadedAetherytes ∧
      starHas (processCell m cam s c).distantStars g = false := by
  rcases processCell_cases m cam s c with hc | ⟨h5, _, _, _, _, hc⟩ |
      ⟨h5, h6, _, _, _, _, hc⟩ <;> rw [hc]
  · exact ⟨hmem, hstar⟩
  · exact ⟨List.mem_append_left _ hmem, starHas_removeFirst_false c hstar⟩
  · refine ⟨hmem, ?_⟩
    have hcg : c ≠ g := by
      intro hcg
      subst hcg
      rw [aethHas_eq_false] at h5
      exact h5 (List.mem_map.2 ⟨(c, a), hmem, rfl⟩)
    simp [hstar, mkStar, hcg]

/-- A cell with no representation whose jittered position fails the frustum
test gains no representation from any `processCell` step. -/
theorem processCell_noRep (m : JsMath) (cam : Camera) (s : State) {g : GridPos}
    (c : GridPos) (hA : aethHas s.loadedAetherytes g = false)
    (hS : starHas s.distantStars g = false)
    (hfr : cam.frustum (gridToWorld m s g) = false) :
    aethHas (processCell m cam s c).loadedAetherytes g = false ∧
      starHas (processCell m cam s c).distantStars g = false := by
  rcases processCell_cases m cam s c with hc | ⟨h5, _, _, hfr', _, hc⟩ |
      ⟨h5, h6, _, _, hfr', _, hc⟩
  · rw [hc]; exact ⟨hA, hS⟩
  · have hcg : c ≠ g := by
      intro hcg
      subst hcg
      rw [hfr'] at hfr
      cases hfr
    rw [hc]
    exact ⟨by simp [hA, hcg], starHas_removeFirst_false c hS⟩
  · have hcg : c ≠ g := by
      intro hcg
      subst hcg
      rw [hfr'] at hfr
      cases hfr
    rw [hc]
    exact ⟨hA, by simp [hS, mkStar, hcg]⟩

theorem foldl_pc_sameSettings (m : JsMath) (cam : Camera) :
    ∀ (l : List GridPos) (s : State), sameSettings s (l.foldl (processCell m cam) s) := by
  intro l
  induction l with
  | nil => exact fun s => sameSettings_refl s
  | cons c t ih =>
    intro s
    rw [List.foldl_cons]
    exact sameSettings_trans (processCell_sameSettings m cam s c) (ih _)

theorem foldl_pc_frameCount (m : JsMath) (cam : Camera) :
    ∀ (l : List GridPos) (s : State),
      (l.foldl (processCell m cam) s).frameCount = s.frameCount := by
  intro l
  induction l with
  | nil => exact fun s => rfl
  | cons c t ih =>
    intro s
    rw [List.foldl_cons, ih, processCell_frameCount]

theorem foldl_pc_inv (m : JsMath) (cam : Camera) :
    ∀ (l : List GridPos) (s : State), Inv s → Inv (l.foldl (processCell m cam) s) := by
  intro l
  induction l with
  | nil => exact fun s h => h
  | cons c t ih =>
    intro s h
    rw [List.foldl_cons]
    exact ih _ (processCell_inv m cam s c h)

theorem foldl_pc_loaded_mem (m : JsMath) (cam : Camera) :
    ∀ (l : List GridPos) (s : State) {e : GridPos × Aetheryte},
      e ∈ s.loadedAetherytes → e ∈ (l.foldl (processCell m cam) s).loadedAetherytes := by
  intro l
  induction l with
  | nil => exact fun s _ h => h
  | cons c t ih =>
    intro s e h
    rw [List.foldl_cons]
    exact ih _ (processCell_loaded_mem m cam s c h)

theorem foldl_pc_stable (m : JsMath) (cam : Camera) :
    ∀ (l : List GridPos) (s : State) {g : GridPos} {a : Aetheryte},
      (g, a) ∈ s.loadedAetherytes → starHas s.distantStars g = false →
      (g, a) ∈ (l.foldl (processCell m cam) s).loadedAetherytes ∧
        starHas (l.foldl (processCell m cam) s).distantStars g = false := by
  intro l
  induction l with
  | nil => exact fun s _ _ hm hs => ⟨hm, hs⟩
  | cons c t ih =>
    intro s g a hm hs
    rw [List.foldl_cons]
    obtain ⟨hm', hs'⟩ := processCell_stable m cam s c hm hs
    exact ih _ hm' hs'

theorem foldl_pc_noRep (m : JsMath) (cam : Camera) {g : GridPos} :
    ∀ (l : List GridPos) (s : State),
      aethHas s.loadedAetherytes g = false → starHas s.distantStars g = false →
      cam.frustum (gridToWorld m s g) = false →
      aethHas (l.foldl (processCell m cam) s).loadedAetherytes g = false ∧
        starHas (l.foldl (processCell m cam) s).distantStars g = false := by
  intro l
  induction l with
  | nil => exact fun s hA hS _ => ⟨hA, hS⟩
  | cons c t ih =>
    intro s hA hS hfr
    rw [List.foldl_cons]
    obtain ⟨hA', hS'⟩ := processCell_noRep m cam s c hA hS hfr
    refine ih _ hA' hS' ?_
    rw [gridToWorld_congr m (processCell_sameSettings m cam s c).2.2.1 g]
    exact hfr

/-! ### The cleanup sweep in closed form -/

theorem aethDelete_append_cons {B t : List (GridPos × Aetheryte)} {e : GridPos × Aetheryte}
    (h : e.1 ∉ B.map Prod.fst) : aethDelete (B ++ e :: t) e.1 = B ++ t := by
  induction B with
  | nil =>
    unfold aethDelete
    rw [List.nil_append, List.nil_append, List.eraseP_cons_of_pos (by simp)]
  | cons b B ih =>
    simp only [List.map_cons, List.mem_cons, not_or] at h
    unfold aethDelete at ih ⊢
    rw [List.cons_append, List.eraseP_cons_of_neg (by simp; exact fun hh => h.1 hh.symm),
      ih h.2, List.cons_append]

/-- The walk of `cleanupStep` over the entry list, started from that list
with arbitrary already-kept prefix `B` and star accumulator `S`, keeps
exactly the near entries and pushes exactly the downgrade stars. -/
theorem cleanup_foldl_eq (cam : Camera) (rD dD : ℚ) :
    ∀ (l B : List (GridPos × Aetheryte)) (S : List Star),
      ((B ++ l).map Prod.fst).Nodup →
      l.foldl (cleanupStep cam rD dD) (B ++ l, S) =
        (B ++ l.filter (aethKeep cam rD dD),
          S ++ l.filterMap (aethDowngrade cam rD dD)) := by
  intro l
  induction l with
  | nil => intro B S _; simp
  | cons e t ih =>
    intro B S hnd
    have hne : e.1 ∉ B.map Prod.fst := by
      intro hmem
      rw [List.map_append] at hnd
      exact (List.disjoint_of_nodup_append hnd) hmem (by simp)
    have hnd' : ((B ++ t).map Prod.fst).Nodup :=
      hnd.sublist (((List.sublist_cons_self e t).append_left B).map Prod.fst)
    rw [List.foldl_cons]
    by_cases hr : (rD * 1.2) ^ 2 < distSq cam.position e.2.originalPosition
    · have hstep : cleanupStep cam rD dD (B ++ e :: t, S) e = (B ++ t, S) := by
        unfold cleanupStep
        rw [if_pos hr, aethDelete_append_cons hne]
      rw [hstep, ih B S hnd',
        List.filter_cons_of_neg (by simp [aethKeep, hr]),
        List.filterMap_cons_none (by simp [aethDowngrade, hr])]
    · by_cases hd : (dD * 1.2) ^ 2 < distSq cam.position e.2.originalPosition
      · have hstep : cleanupStep cam rD dD (B ++ e :: t, S) e =
            (B ++ t, S ++ [downgradeStar e.2 e.1]) := by
          unfold cleanupStep
          rw [if_neg hr, if_pos hd, aethDelete_append_cons hne]
        have hsome : aethDowngrade cam rD dD e = some (downgradeStar e.2 e.1) := by
          simp [aethDowngrade, hr, hd]
        rw [hstep, ih B (S ++ [downgradeStar e.2 e.1]) hnd',
          List.filter_cons_of_neg (by simp [aethKeep, hd]),
          List.filterMap_cons_some hsome,
          List.append_assoc, List.singleton_append]
      · have hstep : cleanupStep cam rD dD (B ++ e :: t, S) e = (B ++ e :: t, S) := by
          unfold cleanupStep
          rw [if_neg hr, if_neg hd]
        have hrw : B ++ e :: t = (B ++ [e]) ++ t := by simp
        rw [hstep, hrw, ih (B ++ [e]) S (by rw [← hrw]; exact hnd),
          List.filter_cons_of_pos (by simp [aethKeep, hr, hd]),
          List.filterMap_cons_none (by simp [aethDowngrade, hr, hd]),
          List.append_assoc, List.singleton_append]

/-- Closed form of the sweep on a well-formed state: the map is filtered to
the near entries, and the star list (old stars plus pushed downgrade stars)
is filtered by the release radius. -/
theorem cleanupDistantObjects_eq (cam : Camera) (s : State)
    (h : (s.loadedAetherytes.map Prod.fst).Nodup) :
    cleanupDistantObjects cam s =
      { s with
        loadedAetherytes :=
          s.loadedAetherytes.filter (aethKeep cam s.renderDistance s.detailDistance)
        distantStars :=
          (s.distantStars ++
            s.loadedAetherytes.filterMap
              (aethDowngrade cam s.renderDistance s.detailDistance)).filter
            (fun st =>
              !((s.renderDistance * 1.2) ^ 2 < distSq cam.position st.originalPosition)) } := by
  have hb := cleanup_foldl_eq cam s.renderDistance s.detailDistance s.loadedAetherytes []
    s.distantStars (by simpa using h)
  rw [List.nil_append] at hb
  unfold cleanupDistantObjects
  rw [hb]
  simp

theorem cleanup_sameSettings (cam : Camera) (s : State) :
    sameSettings s (cleanupDistantObjects cam s) := ⟨rfl, rfl, rfl, rfl⟩

theorem cleanup_frameCount (cam : Camera) (s : State) :
    (cleanupDistantObjects cam s).frameCount = s.frameCount := rfl

theorem cleanup_fold_fst_sublist (cam : Camera) (rD dD : ℚ) :
    ∀ (l A : List (GridPos × Aetheryte)) (S : List Star),
      List.Sublist (l.foldl (cleanupStep cam rD dD) (A, S)).1 A := by
  intro l
  induction l with
  | nil => intro A S; exact List.Sublist.refl A
  | cons e t ih =>
    intro A S
    rw [List.foldl_cons]
    unfold cleanupStep
    split_ifs
    · exact (ih _ _).trans (List.eraseP_sublist A)
    · exact (ih _ _).trans (List.eraseP_sublist A)
    · exact ih A S

theorem cleanup_fold_snd_mem (cam : Camera) (rD dD : ℚ) :
    ∀ (l A : List (GridPos × Aetheryte)) (S : List Star) (st : Star),
      st ∈ (l.foldl (cleanupStep cam rD dD) (A, S)).2 →
      st ∈ S ∨ ∃ e ∈ l, st = downgradeStar e.2 e.1 := by
  intro l
  induction l with
  | nil => intro A S st h; exact Or.inl h
  | cons e t ih =>
    intro A S st h
    rw [List.foldl_cons] at h
    unfold cleanupStep at h
    split_ifs at h
    · rcases ih _ _ _ h with h' | ⟨e', he', rfl⟩
      · exact Or.inl h'
      · exact Or.inr ⟨e', List.mem_cons_of_mem e he', rfl⟩
    · rcases ih _ _ _ h with h' | ⟨e', he', rfl⟩
      · rw [List.mem_append] at h'
        rcases h' with h' | h'
        · exact Or.inl h'
        · rw [List.mem_singleton] at h'
          exact Or.inr ⟨e, List.mem_cons_self e t, h'⟩
      · exact Or.inr ⟨e', List.mem_cons_of_mem e he', rfl⟩
    · rcases ih _ _ _ h with h' | ⟨e', he', rfl⟩
      · exact Or.inl h'
      · exact Or.inr ⟨e', List.mem_cons_of_mem e he', rfl⟩

/-- A cell with no representation gains none from the cleanup sweep (needs
no well-formedness: the walk only deletes entries, and every pushed star
carries the key of a walked entry). -/
theorem cleanup_noRep (cam : Camera) (s : State) {g : GridPos}
    (hA : aethHas s.loadedAetherytes g = false)
    (hS : starHas s.distantStars g = false) :
    aethHas (cleanupDistantObjects cam s).loadedAetherytes g = false ∧
      starHas (cleanupDistantObjects cam s).distantStars g = false := by
  constructor
  · rw [aethHas_eq_false] at hA ⊢
    intro hmem
    obtain ⟨e, he, hek⟩ := List.mem_map.1 hmem
    have he' : e ∈ s.loadedAetherytes :=
      (cleanup_fold_fst_sublist cam s.renderDistance s.detailDistance
        s.loadedAetherytes s.loadedAetherytes s.distantStars).subset he
    exact hA (List.mem_map.2 ⟨e, he', hek⟩)
  · rw [starHas_eq_false] at hS ⊢
    intro hmem
    obtain ⟨st, hst, hstk⟩ := List.mem_map.1 hmem
    have hst' := List.mem_of_mem_filter hst
    rcases cleanup_fold_snd_mem cam s.renderDistance s.detailDistance
        s.loadedAetherytes s.loadedAetherytes s.distantStars st hst' with h | ⟨e, he, rfl⟩
    · exact hS (List.mem_map.2 ⟨st, h, hstk⟩)
    · rw [aethHas_eq_false] at hA
      exact hA (hstk ▸ List.mem_map.2 ⟨e, he, rfl⟩)

/-! ### Invariant preservation through the sweep and the whole tick -/

theorem dg_keys_sublist (cam : Camera) (rD dD : ℚ) :
    ∀ l : List (GridPos × Aetheryte),
      List.Sublist ((l.filterMap (aethDowngrade cam rD dD)).map Star.gridKey)
        (l.map Prod.fst) := by
  intro l
  induction l with
  | nil => simp
  | cons e t ih =>
    rw [List.map_cons]
    by_cases hr : (rD * 1.2) ^ 2 < distSq cam.position e.2.originalPosition
    · rw [List.filterMap_cons_none (by simp [aethDowngrade, hr])]
      exact ih.cons _
    · by_cases hd : (dD * 1.2) ^ 2 < distSq cam.position e.2.originalPosition
      · have hsome : aethDowngrade cam rD dD e = some (downgradeStar e.2 e.1) := by
          simp [aethDowngrade, hr, hd]
        rw [List.filterMap_cons_some hsome, List.map_cons]
        exact ih.cons₂ _
      · rw [List.filterMap_cons_none (by simp [aethDowngrade, hr, hd])]
        exact ih.cons _

theorem dg_mem_star (cam : Camera) (rD dD : ℚ) {l : List (GridPos × Aetheryte)} {st : Star}
    (h : st ∈ l.filterMap (aethDowngrade cam rD dD)) :
    ∃ e ∈ l, st = downgradeStar e.2 e.1 ∧
      ¬(rD * 1.2) ^ 2 < distSq cam.position e.2.originalPosition ∧
      (dD * 1.2) ^ 2 < distSq cam.position e.2.originalPosition := by
  rw [List.mem_filterMap] at h
  obtain ⟨e, he, hsome⟩ := h
  by_cases hr : (rD * 1.2) ^ 2 < distSq cam.position e.2.originalPosition
  · rw [show aethDowngrade cam rD dD e = none from by simp [aethDowngrade, hr]] at hsome
    cases hsome
  · by_cases hd : (dD * 1.2) ^ 2 < distSq cam.position e.2.originalPosition
    · rw [show aethDowngrade cam rD dD e = some (downgradeStar e.2 e.1) from by
        simp [aethDowngrade, hr, hd]] at hsome
      exact ⟨e, he, (Option.some.inj hsome).symm, hr, hd⟩
    · rw [show aethDowngrade cam rD dD e = none from by
        simp [aethDowngrade, hr, hd]] at hsome
      cases hsome

theorem cleanup_inv (cam : Camera) (s : State) (h : Inv s) :
    Inv (cleanupDistantObjects cam s) := by
  unfold Inv exclusion at h
  obtain ⟨hA, hS, hE⟩ := h
  rw [cleanupDistantObjects_eq cam s hA]
  unfold Inv exclusion
  refine ⟨hA.sublist ((List.filter_sublist _).map Prod.fst), ?_, ?_⟩
  · refine List.Nodup.sublist ((List.filter_sublist _).map Star.gridKey) ?_
    rw [List.map_append]
    refine List.Nodup.append hS
      (hA.sublist (dg_keys_sublist cam s.renderDistance s.detailDistance _)) ?_
    intro k hk hkdg
    have hk' : k ∈ s.loadedAetherytes.map Prod.fst :=
      (dg_keys_sublist cam s.renderDistance s.detailDistance _).subset hkdg
    obtain ⟨e, he, hek⟩ := List.mem_map.1 hk'
    have hf := hE e he
    rw [starHas_eq_false] at hf
    rw [hek] at hf
    exact hf hk
  · intro e he
    have hef := List.mem_filter.1 he
    rw [starHas_eq_false]
    intro hk
    obtain ⟨st, hst, hstk⟩ := List.mem_map.1 hk
    have hst2 := List.mem_of_mem_filter hst
    rw [List.mem_append] at hst2
    rcases hst2 with h1 | h1
    · have hf := hE e hef.1
      rw [starHas_eq_false] at hf
      exact hf (List.mem_map.2 ⟨st, h1, hstk⟩)
    · obtain ⟨e', he', rfl, hnr, hdd⟩ := dg_mem_star cam s.renderDistance s.detailDistance h1
      have hkeys : e'.1 = e.1 := hstk
      have heq : e' = e := List.inj_on_of_nodup_map hA he' hef.1 hkeys
      have hkeep := hef.2
      rw [← heq] at hkeep
      simp [aethKeep, hdd] at hkeep

theorem update_not_mod (m : JsMath) (cam : Camera) (s : State)
    (h : (s.frameCount + 1) % 10 ≠ 0) :
    updateProceduralAetherytes m cam s = { s with frameCount := s.frameCount + 1 } := by
  unfold updateProceduralAetherytes
  rw [if_pos h]

theorem update_mod (m : JsMath) (cam : Camera) (s : State)
    (h : (s.frameCount + 1) % 10 = 0) :
    updateProceduralAetherytes m cam s =
      cleanupDistantObjects cam
        ((cubeCells (getGridPosition { s with frameCount := s.frameCount + 1 } cam.position)
            ⌈s.renderDistance / s.gridSize⌉).foldl (processCell m cam)
          { s with frameCount := s.frameCount + 1 }) := by
  unfold updateProceduralAetherytes
  rw [if_neg (by simp [h])]

theorem update_sameSettings (m : JsMath) (cam : Camera) (s : State) :
    sameSettings s (updateProceduralAetherytes m cam s) := by
  by_cases h : (s.frameCount + 1) % 10 ≠ 0
  · rw [update_not_mod m cam s h]
    exact ⟨rfl, rfl, rfl, rfl⟩
  · rw [not_ne_iff] at h
    rw [update_mod m cam s h]
    have h1 : sameSettings s { s with frameCount := s.frameCount + 1 } :=
      ⟨rfl, rfl, rfl, rfl⟩
    have h2 := foldl_pc_sameSettings m cam
      (cubeCells (getGridPosition { s with frameCount := s.frameCount + 1 } cam.position)
        ⌈s.renderDistance / s.gridSize⌉) { s with frameCount := s.frameCount + 1 }
    exact sameSettings_trans (sameSettings_trans h1 h2) (cleanup_sameSettings cam _)

theorem update_inv (m : JsMath) (cam : Camera) (s : State) (h : Inv s) :
    Inv (updateProceduralAetherytes m cam s) := by
  by_cases hm : (s.frameCount + 1) % 10 ≠ 0
  · rw [update_not_mod m cam s hm]
    exact h
  · rw [not_ne_iff] at hm
    rw [update_mod m cam s hm]
    exact cleanup_inv cam _ (foldl_pc_inv m cam _ _ h)

theorem animate_sameSettings (m : JsMath) (s : State) :
    sameSettings s (animateObjects m s) := ⟨rfl, rfl, rfl, rfl⟩

theorem animate_keys (m : JsMath) (s : State) :
    (animateObjects m s).loadedAetherytes.map Prod.fst =
      s.loadedAetherytes.map Prod.fst := by
  unfold animateObjects
  rw [List.map_map]
  rfl

theorem animate_inv (m : JsMath) (s : State) (h : Inv s) : Inv (animateObjects m s) := by
  unfold Inv exclusion at h
  obtain ⟨hA, hS, hE⟩ := h
  refine ⟨?_, hS, ?_⟩
  · rw [animate_keys]
    exact hA
  · intro e he
    unfold animateObjects at he
    simp only [List.mem_map] at he
    obtain ⟨e', he', rfl⟩ := he
    exact hE e' he'

theorem step_sameSettings (m : JsMath) {s s' : State} (h : Step m s s') :
    sameSettings s s' := by
  rcases h with ⟨cam, rfl⟩ | rfl
  · exact update_sameSettings m cam s
  · exact animate_sameSettings m s

theorem step_inv (m : JsMath) {s s' : State} (h : Step m s s') (hI : Inv s) : Inv s' := by
  rcases h with ⟨cam, rfl⟩ | rfl
  · exact update_inv m cam s hI
  · exact animate_inv m s hI

theorem reach_sameSettings (m : JsMath) {s s' : State}
    (h : Relation.ReflTransGen (Step m) s s') : sameSettings s s' := by
  induction h with
  | refl => exact sameSettings_refl s
  | tail _ hstep ih => exact sameSettings_trans ih (step_sameSettings m hstep)

theorem reach_inv (m : JsMath) {s s' : State}
    (h : Relation.ReflTransGen (Step m) s s') (hI : Inv s) : Inv s' := by
  induction h with
  | refl => exact hI
  | tail _ hstep ih => exact step_inv m hstep ih

/-! ### Component equations and bounds for the sweep -/

theorem cleanup_loaded_eq (cam : Camera) (s : State)
    (h : (s.loadedAetherytes.map Prod.fst).Nodup) :
    (cleanupDistantObjects cam s).loadedAetherytes =
      s.loadedAetherytes.filter (aethKeep cam s.renderDistance s.detailDistance) := by
  rw [cleanupDistantObjects_eq cam s h]

theorem cleanup_stars_eq (cam : Camera) (s : State)
    (h : (s.loadedAetherytes.map Prod.fst).Nodup) :
    (cleanupDistantObjects cam s).distantStars =
      (s.distantStars ++
        s.loadedAetherytes.filterMap
          (aethDowngrade cam s.renderDistance s.detailDistance)).filter
        (fun st =>
          !((s.renderDistance * 1.2) ^ 2 < distSq cam.position st.originalPosition)) := by
  rw [cleanupDistantObjects_eq cam s h]

/-- After the sweep, every surviving representation sits within
`renderDistance * 1.2` (squared comparison) of the camera. -/
theorem cleanup_bounds (cam : Camera) (s : State)
    (h : (s.loadedAetherytes.map Prod.fst).Nodup) :
    (∀ e ∈ (cleanupDistantObjects cam s).loadedAetherytes,
        distSq cam.position e.2.originalPosition ≤ (s.renderDistance * 1.2) ^ 2) ∧
      ∀ st ∈ (cleanupDistantObjects cam s).distantStars,
        distSq cam.position st.originalPosition ≤ (s.renderDistance * 1.2) ^ 2 := by
  constructor
  · intro e he
    rw [cleanup_loaded_eq cam s h] at he
    have hk := (List.mem_filter.1 he).2
    simp only [aethKeep, Bool.and_eq_true, Bool.not_eq_true', decide_eq_false_iff_not,
      not_lt] at hk
    exact hk.1
  · intro st hst
    rw [cleanup_stars_eq cam s h] at hst
    have hk := (List.mem_filter.1 hst).2
    simp only [Bool.not_eq_true', decide_eq_false_iff_not, not_lt] at hk
    exact hk

/-! ### Remaining step lemmas for the per-cell fold -/

theorem mem_first_split {α : Type} [DecidableEq α] {a : α} :
    ∀ {l : List α}, a ∈ l → ∃ l₁ l₂, l = l₁ ++ a :: l₂ ∧ a ∉ l₁ := by
  intro l
  induction l with
  | nil => intro h; cases h
  | cons b t ih =>
    intro h
    by_cases hab : a = b
    · subst hab
      exact ⟨[], t, rfl, by simp⟩
    · obtain ⟨l₁, l₂, hsplit, hni⟩ := ih ((List.mem_cons.1 h).resolve_left hab)
      exact ⟨b :: l₁, l₂, by rw [hsplit, List.cons_append], by simp [hab, hni]⟩

theorem processCell_aethHas_false (m : JsMath) (cam : Camera) (s : State) {g : GridPos}
    (c : GridPos) (hne : c ≠ g) (hA : aethHas s.loadedAetherytes g = false) :
    aethHas (processCell m cam s c).loadedAetherytes g = false := by
  rcases processCell_cases m cam s c with hc | ⟨_, _, _, _, _, hc⟩ |
      ⟨_, _, _, _, _, _, hc⟩ <;> rw [hc]
  · exact hA
  · simp [hA, hne]
  · exact hA

theorem processCell_norep_ne (m : JsMath) (cam : Camera) (s : State) {g : GridPos}
    (c : GridPos) (hne : c ≠ g) (hA : aethHas s.loadedAetherytes g = false)
    (hS : starHas s.distantStars g = false) :
    aethHas (processCell m cam s c).loadedAetherytes g = false ∧
      starHas (processCell m cam s c).distantStars g = false := by
  rcases processCell_cases m cam s c with hc | ⟨_, _, _, _, _, hc⟩ |
      ⟨_, _, _, _, _, _, hc⟩ <;> rw [hc]
  · exact ⟨hA, hS⟩
  · exact ⟨by simp [hA, hne], starHas_removeFirst_false c hS⟩
  · exact ⟨hA, by simp [hS, mkStar, hne]⟩

theorem foldl_pc_norep_notin (m : JsMath) (cam : Camera) {g : GridPos} :
    ∀ (l : List GridPos) (s : State), g ∉ l →
      aethHas s.loadedAetherytes g = false → starHas s.distantStars g = false →
      aethHas (l.foldl (processCell m cam) s).loadedAetherytes g = false ∧
        starHas (l.foldl (processCell m cam) s).distantStars g = false := by
  intro l
  induction l with
  | nil => exact fun s _ hA hS => ⟨hA, hS⟩
  | cons c t ih =>
    intro s hnot hA hS
    rw [List.mem_cons, not_or] at hnot
    rw [List.foldl_cons]
    obtain ⟨hA', hS'⟩ :=
      processCell_norep_ne m cam s c (fun h => hnot.1 h.symm) hA hS
    exact ih _ hnot.2 hA' hS'

/-- In the far branch (`distance ≥ detailDistance` at the reference cell), a
star for the cell plus the absence of a detailed entry survive every later
`processCell` step of the tick. -/
theorem processCell_star_stable (m : JsMath) (cam : Camera) (s : State) {g : GridPos}
    {st : Star} (hkey : st.gridKey = g) (c : GridPos)
    (hst : st ∈ s.distantStars) (hA : aethHas s.loadedAetherytes g = false)
    (hfar : ¬distSq cam.position (gridToWorld m s g) < s.detailDistance ^ 2) :
    st ∈ (processCell m cam s c).distantStars ∧
      aethHas (processCell m cam s c).loadedAetherytes g = false := by
  rcases processCell_cases m cam s c with hc | ⟨h5, _, _, _, hd2, hc⟩ |
      ⟨h5, h6, _, _, _, _, hc⟩
  · rw [hc]; exact ⟨hst, hA⟩
  · have hcg : c ≠ g := by
      intro hcg
      subst hcg
      exact hfar hd2
    rw [hc]
    exact ⟨star_mem_removeFirst hst (by rw [hkey]; exact fun h => hcg h.symm),
      by simp [hA, hcg]⟩
  · have hcg : c ≠ g := by
      intro hcg
      subst hcg
      rw [(starHas_iff s.distantStars c).2 (List.mem_map.2 ⟨st, hst, hkey⟩)] at h6
      cases h6
    rw [hc]
    exact ⟨List.mem_append_left _ hst, hA⟩

theorem foldl_pc_star_stable (m : JsMath) (cam : Camera) {g : GridPos} {st : Star}
    (hkey : st.gridKey = g) :
    ∀ (l : List GridPos) (s : State), st ∈ s.distantStars →
      aethHas s.loadedAetherytes g = false →
      ¬distSq cam.position (gridToWorld m s g) < s.detailDistance ^ 2 →
      st ∈ (l.foldl (processCell m cam) s).distantStars ∧
        aethHas (l.foldl (processCell m cam) s).loadedAetherytes g = false := by
  intro l
  induction l with
  | nil => exact fun s hst hA _ => ⟨hst, hA⟩
  | cons c t ih =>
    intro s hst hA hfar
    rw [List.foldl_cons]
    obtain ⟨hst', hA'⟩ := processCell_star_stable m cam s hkey c hst hA hfar
    refine ih _ hst' hA' ?_
    have hset := processCell_sameSettings m cam s c
    rw [gridToWorld_congr m hset.2.2.1 g, hset.2.1]
    exact hfar

theorem Inv.aethNodup {s : State} (h : Inv s) :
    (s.loadedAetherytes.map Prod.fst).Nodup := by
  unfold Inv at h
  exact h.1

theorem Inv.starNodup {s : State} (h : Inv s) :
    (s.distantStars.map Star.gridKey).Nodup := by
  unfold Inv at h
  exact h.2.1

theorem foldl_pc_aethHas_false (m : JsMath) (cam : Camera) {g : GridPos} :
    ∀ (l : List GridPos) (s : State), g ∉ l →
      aethHas s.loadedAetherytes g = false →
      aethHas (l.foldl (processCell m cam) s).loadedAetherytes g = false := by
  intro l
  induction l with
  | nil => exact fun s _ hA => hA
  | cons c t ih =>
    intro s hnot hA
    rw [List.mem_cons, not_or] at hnot
    rw [List.foldl_cons]
    exact ih _ hnot.2
      (processCell_aethHas_false m cam s c (fun h => hnot.1 h.symm) hA)

/-! ### The claims -/

/-- C1: for every fixed grid cell key, the placement gate
(`shouldHaveAetheryte`) and the jitter function (`gridToWorld`) return
identical results on every call: they are pure functions of the integer
triple (and the fixed generation settings, which no tick ever writes), so
evaluating them in any state reachable from a given state gives equal
outputs. -/
theorem c1_placement_determinism (m : JsMath) {s s' : State}
    (h : Relation.ReflTransGen (Step m) s s') (g : GridPos) :
    shouldHaveAetheryte m s' g = shouldHaveAetheryte m s g ∧
      gridToWorld m s' g = gridToWorld m s g := by
  have hset := reach_sameSettings m h
  exact ⟨shouldHave_congr m hset.2.2.2 g, gridToWorld_congr m hset.2.2.1 g⟩

theorem c1_placement_determinism_witness :
    shouldHaveAetheryte mZero (updateProceduralAetherytes mZero cam0 initState) ⟨1, 2, 3⟩ =
        shouldHaveAetheryte mZero initState ⟨1, 2, 3⟩ ∧
      gridToWorld mZero (updateProceduralAetherytes mZero cam0 initState) ⟨1, 2, 3⟩ =
        gridToWorld mZero initState ⟨1, 2, 3⟩ :=
  c1_placement_determinism mZero
    (Relation.ReflTransGen.single (Or.inl ⟨cam0, rfl⟩)) ⟨1, 2, 3⟩

/-- C2: in every state reachable from the constructor's initial state by
update ticks and animation frames, no grid cell key is simultaneously
present in the detailed set (`loadedAetherytes`) and in the distant-star set
(`distantStars`). -/
theorem c2_mutual_exclusion (m : JsMath) {s : State}
    (h : Relation.ReflTransGen (Step m) initState s) : exclusion s :=
  (reach_inv m h (by decide)).2.2

theorem c2_mutual_exclusion_witness :
    exclusion (updateProceduralAetherytes mZero cam0 initState) :=
  c2_mutual_exclusion mZero (Relation.ReflTransGen.single (Or.inl ⟨cam0, rfl⟩))

/-- C5: on a tick whose (incremented) frame counter is not a multiple of 10,
`updateProceduralAetherytes` returns having changed nothing except the frame
counter: in particular no creations, upgrades, downgrades, or removals of
stars or detailed objects happen. -/
theorem c5_throttle (m : JsMath) (cam : Camera) (s : State)
    (h : (s.frameCount + 1) % 10 ≠ 0) :
    (updateProceduralAetherytes m cam s).loadedAetherytes = s.loadedAetherytes ∧
      (updateProceduralAetherytes m cam s).distantStars = s.distantStars ∧
      updateProceduralAetherytes m cam s = { s with frameCount := s.frameCount + 1 } := by
  rw [update_not_mod m cam s h]
  exact ⟨rfl, rfl, rfl⟩

theorem c5_throttle_witness :
    (initState.frameCount + 1) % 10 ≠ 0 ∧
      (updateProceduralAetherytes mZero cam0 initState).loadedAetherytes =
        initState.loadedAetherytes ∧
      (updateProceduralAetherytes mZero cam0 initState).distantStars =
        initState.distantStars :=
  ⟨by decide,
    (c5_throttle mZero cam0 initState (by decide)).1,
    (c5_throttle mZero cam0 initState (by decide)).2.1⟩

/-- C8: every operation of the populator is a total function of its inputs.
The squared distance (the argument of the square root in `distanceTo`) is
never negative, the pseudo-random generator always yields a value in the
half-open unit interval, and grid-key derivation, jitter, the placement gate,
the frustum test and the full update tick each produce a defined result on
every input. -/
theorem c8_totality :
    (∀ p q : Vec3, 0 ≤ distSq p q) ∧
      (∀ (m : JsMath) (x y z : ℤ),
        0 ≤ seededRandom m x y z ∧ seededRandom m x y z < 1) ∧
      (∀ (s : State) (p : Vec3), ∃ g : GridPos, getGridPosition s p = g) ∧
      (∀ (m : JsMath) (s : State) (g : GridPos), ∃ w : Vec3, gridToWorld m s g = w) ∧
      (∀ (m : JsMath) (s : State) (g : GridPos),
        shouldHaveAetheryte m s g = true ∨ shouldHaveAetheryte m s g = false) ∧
      (∀ (cam : Camera) (p : Vec3), cam.frustum p = true ∨ cam.frustum p = false) ∧
      (∀ (m : JsMath) (cam : Camera) (s : State),
        ∃ s' : State, updateProceduralAetherytes m cam s = s') := by
  refine ⟨?_, ?_, ?_, ?_, ?_, ?_, ?_⟩
  · intro p q
    unfold distSq
    positivity
  · exact fun m x y z => ⟨seededRandom_nonneg m x y z, seededRandom_lt_one m x y z⟩
  · exact fun s p => ⟨_, rfl⟩
  · exact fun m s g => ⟨_, rfl⟩
  · exact fun m s g => Bool.eq_false_or_eq_true (shouldHaveAetheryte m s g)
  · exact fun cam p => Bool.eq_false_or_eq_true (cam.frustum p)
  · exact fun m cam s => ⟨_, rfl⟩

/-- C9: the per-axis jitter produced by `seededRandom` lies in `[-10, 10)`,
strictly less than half the grid spacing of 100, so rounding the jittered
world position back to the lattice (`getGridPosition` after `gridToWorld`)
recovers the original cell key. -/
theorem c9_roundtrip (m : JsMath) (s : State) (hgs : s.gridSize = 100) (g : GridPos) :
    (∀ x y z : ℤ,
        -10 ≤ (seededRandom m x y z - 0.5) * 20 ∧
          (seededRandom m x y z - 0.5) * 20 < 10) ∧
      getGridPosition s (gridToWorld m s g) = g := by
  refine ⟨fun x y z => jitter_bounds m x y z, ?_⟩
  obtain ⟨gx, gy, gz⟩ := g
  have h1 := jitter_bounds m gx gy gz
  have h2 := jitter_bounds m gy gz gx
  have h3 := jitter_bounds m gz gx gy
  unfold getGridPosition gridToWorld
  rw [hgs]
  simp only [GridPos.mk.injEq]
  exact ⟨jsRound_grid gx _ h1.1 h1.2, jsRound_grid gy _ h2.1 h2.2,
    jsRound_grid gz _ h3.1 h3.2⟩

theorem c9_roundtrip_witness :
    initState.gridSize = 100 ∧
      getGridPosition initState (gridToWorld mZero initState ⟨5, -3, 2⟩) = ⟨5, -3, 2⟩ :=
  ⟨by decide, (c9_roundtrip mZero initState (by decide) ⟨5, -3, 2⟩).2⟩

/-- C10: the per-frame animation keeps each coordinate of a loaded detailed
object's position within 8 units of its stored original placement position
(the sine-wave drift has amplitude 8). -/
theorem c10_bounded_oscillation (m : JsMath) (s : State)
    (hsin : ∀ q : ℚ, |m.sin q| ≤ 1) {k : GridPos} {a : Aetheryte}
    (hmem : (k, a) ∈ (animateObjects m s).loadedAetherytes) :
    |a.position.x - a.originalPosition.x| ≤ 8 ∧
      |a.position.y - a.originalPosition.y| ≤ 8 ∧
      |a.position.z - a.originalPosition.z| ≤ 8 := by
  unfold animateObjects at hmem
  simp only [List.mem_map] at hmem
  obtain ⟨e, he, heq⟩ := hmem
  rw [Prod.mk.injEq] at heq
  obtain ⟨hk, ha⟩ := heq
  subst ha
  simp only [animateAetheryte]
  refine ⟨?_, ?_, ?_⟩
  · rw [add_sub_cancel_left, abs_mul, show |(8 : ℚ)| = 8 from by norm_num]
    have h := hsin ((e.2.time + 0.05) * e.2.drift.dx * 100)
    nlinarith [abs_nonneg (m.sin ((e.2.time + 0.05) * e.2.drift.dx * 100))]
  · rw [add_sub_cancel_left, abs_mul, show |(8 : ℚ)| = 8 from by norm_num]
    have h := hsin ((e.2.time + 0.05) * e.2.drift.dy * 100 + 1)
    nlinarith [abs_nonneg (m.sin ((e.2.time + 0.05) * e.2.drift.dy * 100 + 1))]
  · rw [add_sub_cancel_left, abs_mul, show |(8 : ℚ)| = 8 from by norm_num]
    have h := hsin ((e.2.time + 0.05) * e.2.drift.dz * 100 + 2)
    nlinarith [abs_nonneg (m.sin ((e.2.time + 0.05) * e.2.drift.dz * 100 + 2))]

theorem c10_bounded_oscillation_witness :
    |(animateAetheryte mZero aSample).position.x -
        (animateAetheryte mZero aSample).originalPosition.x| ≤ 8 :=
  (@c10_bounded_oscillation mZero sWithA (fun q => by norm_num [mZero]) ⟨0, 0, 0⟩
    (animateAetheryte mZero aSample)
    (by simp [animateObjects, sWithA, initState])).1

/-- C3: the sweep downgrades a detailed representation only when its distance
from the viewpoint exceeds `detailDistance * 1.2`; at any distance up to
`detailDistance * 1.2` (in particular in `(detailDistance,
detailDistance * 1.2]`) it is kept; a downgraded cell receives a distant
star carrying the same original position rather than being removed outright,
unless it also exceeds `renderDistance * 1.2` in which case it vanishes
without a replacement star.  (Comparisons are in squared form.) -/
theorem c3_hysteresis (cam : Camera) (s : State) (hInv : Inv s)
    (h0 : 0 ≤ s.detailDistance) (hdr : s.detailDistance ≤ s.renderDistance)
    {k : GridPos} {a : Aetheryte} (hmem : (k, a) ∈ s.loadedAetherytes) :
    (distSq cam.position a.originalPosition ≤ (s.detailDistance * 1.2) ^ 2 →
      (k, a) ∈ (cleanupDistantObjects cam s).loadedAetherytes) ∧
      ((s.detailDistance * 1.2) ^ 2 < distSq cam.position a.originalPosition →
        distSq cam.position a.originalPosition ≤ (s.renderDistance * 1.2) ^ 2 →
        aethHas (cleanupDistantObjects cam s).loadedAetherytes k = false ∧
          ∃ st ∈ (cleanupDistantObjects cam s).distantStars,
            st.gridKey = k ∧ st.originalPosition = a.originalPosition) ∧
      ((s.renderDistance * 1.2) ^ 2 < distSq cam.position a.originalPosition →
        aethHas (cleanupDistantObjects cam s).loadedAetherytes k = false ∧
          (starHas s.distantStars k = false →
            starHas (cleanupDistantObjects cam s).distantStars k = false)) := by
  have hA := hInv.aethNodup
  have hL := cleanup_loaded_eq cam s hA
  have hD := cleanup_stars_eq cam s hA
  have hsq : (s.detailDistance * 1.2) ^ 2 ≤ (s.renderDistance * 1.2) ^ 2 := by nlinarith
  refine ⟨?_, ?_, ?_⟩
  · intro hnear
    rw [hL]
    refine List.mem_filter.2 ⟨hmem, ?_⟩
    simp only [aethKeep, Bool.and_eq_true, Bool.not_eq_true', decide_eq_false_iff_not,
      not_lt]
    exact ⟨le_trans hnear hsq, hnear⟩
  · intro hfar hin
    constructor
    · rw [hL, aethHas_eq_false]
      intro hkmem
      obtain ⟨e, he, hek⟩ := List.mem_map.1 hkmem
      have hmf := List.mem_filter.1 he
      have heq : e = (k, a) := List.inj_on_of_nodup_map hA hmf.1 hmem (by rw [hek])
      have hkeep := hmf.2
      rw [heq] at hkeep
      simp only [aethKeep, Bool.and_eq_true, Bool.not_eq_true', decide_eq_false_iff_not,
        not_lt] at hkeep
      exact absurd hkeep.2 (not_le.2 hfar)
    · rw [hD]
      refine ⟨downgradeStar a k, ?_, rfl, rfl⟩
      refine List.mem_filter.2 ⟨List.mem_append_right _ ?_, ?_⟩
      · refine List.mem_filterMap.2 ⟨(k, a), hmem, ?_⟩
        simp [aethDowngrade, not_lt.2 hin, hfar]
      · simp [downgradeStar, not_lt.2 hin]
  · intro hvfar
    constructor
    · rw [hL, aethHas_eq_false]
      intro hkmem
      obtain ⟨e, he, hek⟩ := List.mem_map.1 hkmem
      have hmf := List.mem_filter.1 he
      have heq : e = (k, a) := List.inj_on_of_nodup_map hA hmf.1 hmem (by rw [hek])
      have hkeep := hmf.2
      rw [heq] at hkeep
      simp only [aethKeep, Bool.and_eq_true, Bool.not_eq_true', decide_eq_false_iff_not,
        not_lt] at hkeep
      exact absurd hkeep.1 (not_le.2 hvfar)
    · intro hsk
      rw [hD, starHas_eq_false]
      intro hkmem
      obtain ⟨st, hst, hstk⟩ := List.mem_map.1 hkmem
      have hmf := List.mem_filter.1 hst
      rw [List.mem_append] at hmf
      rcases hmf.1 with hin1 | hin2
      · rw [starHas_eq_false] at hsk
        exact hsk (List.mem_map.2 ⟨st, hin1, hstk⟩)
      · obtain ⟨e', he', rfl, hnr, hdd⟩ :=
          dg_mem_star cam s.renderDistance s.detailDistance hin2
        have heq : e' = (k, a) := List.inj_on_of_nodup_map hA he' hmem hstk
        rw [heq] at hnr
        exact hnr hvfar

theorem c3_hysteresis_witness :
    Inv sWithA ∧
      distSq cam0.position aSample.originalPosition ≤ (sWithA.detailDistance * 1.2) ^ 2 ∧
      (⟨0, 0, 0⟩, aSample) ∈ (cleanupDistantObjects cam0 sWithA).loadedAetherytes :=
  ⟨by decide, by norm_num [distSq, cam0, aSample, sWithA, initState],
    (c3_hysteresis cam0 sWithA (by decide) (by decide) (by decide)
      (List.mem_singleton.2 rfl)).1
      (by norm_num [distSq, cam0, aSample, sWithA, initState])⟩

/-- C4 counterexample: the sweep runs inside the throttle gate, not on every
tick.  Starting from a state whose frame counter is 0 and whose star list
holds a star whose original placement is far beyond
`renderDistance * 1.2` of the camera, the tick (whose incremented counter 1
is not a multiple of 10) returns with that star still present. -/
theorem c4_sweep_counterexample :
    (sFarStar.renderDistance * 1.2) ^ 2 < distSq cam0.position farStar.originalPosition ∧
      farStar ∈ (updateProceduralAetherytes mZero cam0 sFarStar).distantStars := by
  constructor
  · norm_num [distSq, cam0, farStar, sFarStar, initState]
  · rw [update_not_mod mZero cam0 sFarStar (by decide)]
    exact List.mem_singleton.2 rfl

/-- C4 (amended): on every unthrottled tick (incremented frame counter a
multiple of 10) from a well-formed state, the sweep runs and afterwards no
representation — detailed object or distant star — whose original placement
lies beyond `renderDistance * 1.2` of the viewpoint survives.  (On throttled
ticks the active set is untouched, see the counterexample.) -/
theorem c4_sweep_amended (m : JsMath) (cam : Camera) (s : State) (hInv : Inv s)
    (h10 : (s.frameCount + 1) % 10 = 0) :
    (∀ e ∈ (updateProceduralAetherytes m cam s).loadedAetherytes,
        distSq cam.position e.2.originalPosition ≤ (s.renderDistance * 1.2) ^ 2) ∧
      ∀ st ∈ (updateProceduralAetherytes m cam s).distantStars,
        distSq cam.position st.originalPosition ≤ (s.renderDistance * 1.2) ^ 2 := by
  rw [update_mod m cam s h10]
  have hInv1 := foldl_pc_inv m cam
    (cubeCells (getGridPosition { s with frameCount := s.frameCount + 1 } cam.position)
      ⌈s.renderDistance / s.gridSize⌉) { s with frameCount := s.frameCount + 1 } hInv
  have hset := foldl_pc_sameSettings m cam
    (cubeCells (getGridPosition { s with frameCount := s.frameCount + 1 } cam.position)
      ⌈s.renderDistance / s.gridSize⌉) { s with frameCount := s.frameCount + 1 }
  obtain ⟨hb1, hb2⟩ := cleanup_bounds cam _ hInv1.aethNodup
  rw [hset.1] at hb1 hb2
  exact ⟨hb1, hb2⟩

theorem c4_sweep_amended_witness :
    Inv s9 ∧ (s9.frameCount + 1) % 10 = 0 ∧
      (∀ e ∈ (updateProceduralAetherytes mZero cam0 s9).loadedAetherytes,
          distSq cam0.position e.2.originalPosition ≤ (s9.renderDistance * 1.2) ^ 2) ∧
      ∀ st ∈ (updateProceduralAetherytes mZero cam0 s9).distantStars,
        distSq cam0.position st.originalPosition ≤ (s9.renderDistance * 1.2) ^ 2 :=
  ⟨by decide, by decide,
    (c4_sweep_amended mZero cam0 s9 (by decide) (by decide)).1,
    (c4_sweep_amended mZero cam0 s9 (by decide) (by decide)).2⟩

/-- C6: a candidate cell whose jittered world position fails the camera's
frustum test, and which currently has no representation, gains no
representation from the update tick — regardless of the placement gate and
of its distance. -/
theorem c6_visibility_gating (m : JsMath) (cam : Camera) (s : State) (g : GridPos)
    (hA : aethHas s.loadedAetherytes g = false)
    (hS : starHas s.distantStars g = false)
    (hF : cam.frustum (gridToWorld m s g) = false) :
    aethHas (updateProceduralAetherytes m cam s).loadedAetherytes g = false ∧
      starHas (updateProceduralAetherytes m cam s).distantStars g = false := by
  by_cases hm : (s.frameCount + 1) % 10 ≠ 0
  · rw [update_not_mod m cam s hm]
    exact ⟨hA, hS⟩
  · rw [not_ne_iff] at hm
    rw [update_mod m cam s hm]
    obtain ⟨hA', hS'⟩ := foldl_pc_noRep m cam
      (cubeCells (getGridPosition { s with frameCount := s.frameCount + 1 } cam.position)
        ⌈s.renderDistance / s.gridSize⌉) { s with frameCount := s.frameCount + 1 } hA hS hF
    exact cleanup_noRep cam _ hA' hS'

theorem c6_visibility_gating_witness :
    aethHas (updateProceduralAetherytes mZero camBlind s9).loadedAetherytes
        ⟨0, 0, 0⟩ = false ∧
      starHas (updateProceduralAetherytes mZero camBlind s9).distantStars
        ⟨0, 0, 0⟩ = false :=
  c6_visibility_gating mZero camBlind s9 ⟨0, 0, 0⟩ rfl rfl rfl

set_option maxHeartbeats 1000000 in
/-- The upgrade scenario across the whole tick: if the reference cell `g`
passes all guards with distance below `detailDistance` and has no detailed
entry, then after folding the cell list (in which `g` occurs after a prefix
not containing it) and sweeping, the cell has its detailed representation
and no distant stand-in. -/
theorem fold_cleanup_upgrade (m : JsMath) (cam : Camera) (s1 : State) {g : GridPos}
    (l₁ l₂ : List GridPos) (hnotin : g ∉ l₁) (hInv : Inv s1)
    (h0 : 0 ≤ s1.detailDistance) (hdr : s1.detailDistance ≤ s1.renderDistance)
    (hgate : shouldHaveAetheryte m s1 g = true)
    (hdist : distSq cam.position (gridToWorld m s1 g) ≤ s1.renderDistance ^ 2)
    (hfr : cam.frustum (gridToWorld m s1 g) = true)
    (hlt : distSq cam.position (gridToWorld m s1 g) < s1.detailDistance ^ 2)
    (hA0 : aethHas s1.loadedAetherytes g = false) :
    aethHas (cleanupDistantObjects cam
        ((l₁ ++ g :: l₂).foldl (processCell m cam) s1)).loadedAetherytes g = true ∧
      starHas (cleanupDistantObjects cam
        ((l₁ ++ g :: l₂).foldl (processCell m cam) s1)).distantStars g = false := by
  rw [List.foldl_append, List.foldl_cons]
  obtain ⟨M, hMg⟩ : ∃ M, List.foldl (processCell m cam) s1 l₁ = M := ⟨_, rfl⟩
  rw [hMg]
  have hsetM : sameSettings s1 M := hMg ▸ foldl_pc_sameSettings m cam l₁ s1
  have hInvM : Inv M := hMg ▸ foldl_pc_inv m cam l₁ s1 hInv
  have hA_M : aethHas M.loadedAetherytes g = false :=
    hMg ▸ foldl_pc_aethHas_false m cam l₁ s1 hnotin hA0
  have hgw : gridToWorld m M g = gridToWorld m s1 g := gridToWorld_congr m hsetM.2.2.1 g
  have hgateM : shouldHaveAetheryte m M g = true := by
    rw [shouldHave_congr m hsetM.2.2.2 g]
    exact hgate
  have hdistM : distSq cam.position (gridToWorld m M g) ≤ M.renderDistance ^ 2 := by
    rw [hgw, hsetM.1]
    exact hdist
  have hfrM : cam.frustum (gridToWorld m M g) = true := by
    rw [hgw]
    exact hfr
  have hltM : distSq cam.position (gridToWorld m M g) < M.detailDistance ^ 2 := by
    rw [hgw, hsetM.2.1]
    exact hlt
  have hcr := processCell_create_aeth m cam M g hgateM hdistM hfrM hltM hA_M
  rw [hcr]
  have hmem1 : (g, mkAetheryte m g (gridToWorld m M g)) ∈
      (M.loadedAetherytes ++ [(g, mkAetheryte m g (gridToWorld m M g))]) :=
    List.mem_append_right _ (List.mem_singleton.2 rfl)
  have hstar1 : starHas (starRemoveFirst M.distantStars g) g = false :=
    starHas_removeFirst_self _ _ hInvM.starNodup
  have hInvM' : Inv { M with
      loadedAetherytes := M.loadedAetherytes ++ [(g, mkAetheryte m g (gridToWorld m M g))]
      distantStars := starRemoveFirst M.distantStars g } := by
    have h := processCell_inv m cam M g hInvM
    rwa [hcr] at h
  obtain ⟨F, hF⟩ : ∃ F, List.foldl (processCell m cam)
      { M with
        loadedAetherytes := M.loadedAetherytes ++ [(g, mkAetheryte m g (gridToWorld m M g))]
        distantStars := starRemoveFirst M.distantStars g } l₂ = F := ⟨_, rfl⟩
  rw [hF]
  obtain ⟨hmemF, hstarF⟩ := hF ▸ foldl_pc_stable m cam l₂ _ hmem1 hstar1
  have hInvF : Inv F := hF ▸ foldl_pc_inv m cam l₂ _ hInvM'
  have hsetF : sameSettings s1 F :=
    sameSettings_trans (sameSettings_trans hsetM ⟨rfl, rfl, rfl, rfl⟩)
      (hF ▸ foldl_pc_sameSettings m cam l₂ _)
  constructor
  · rw [cleanup_loaded_eq cam F hInvF.aethNodup, aethHas_iff]
    refine List.mem_map.2
      ⟨(g, mkAetheryte m g (gridToWorld m M g)), List.mem_filter.2 ⟨hmemF, ?_⟩, rfl⟩
    simp only [aethKeep, Bool.and_eq_true, Bool.not_eq_true', decide_eq_false_iff_not,
      not_lt, mkAetheryte]
    rw [hsetF.1, hsetF.2.1, hgw]
    constructor
    · nlinarith
    · nlinarith
  · rw [cleanup_stars_eq cam F hInvF.aethNodup, starHas_eq_false]
    intro hk
    obtain ⟨st, hst, hstk⟩ := List.mem_map.1 hk
    have h1 := List.mem_of_mem_filter hst
    rw [List.mem_append] at h1
    rcases h1 with h1 | h1
    · rw [starHas_eq_false] at hstarF
      exact hstarF (List.mem_map.2 ⟨st, h1, hstk⟩)
    · obtain ⟨e', he', rfl, hnr, hdd⟩ :=
        dg_mem_star cam F.renderDistance F.detailDistance h1
      have heq : e' = (g, mkAetheryte m g (gridToWorld m M g)) :=
        List.inj_on_of_nodup_map hInvF.aethNodup he' hmemF hstk
      rw [heq] at hdd
      simp only [mkAetheryte] at hdd
      rw [hsetF.2.1, hgw] at hdd
      nlinarith

set_option maxHeartbeats 1000000 in
/-- The stand-in scenario across the whole tick: if the reference cell `g`
passes all guards with distance at or above `detailDistance` and has neither
representation, then after folding the cell list and sweeping, the cell has
a distant stand-in. -/
theorem fold_cleanup_star (m : JsMath) (cam : Camera) (s1 : State) {g : GridPos}
    (l₁ l₂ : List GridPos) (hnotin : g ∉ l₁) (hInv : Inv s1)
    (h0 : 0 ≤ s1.detailDistance) (hdr : s1.detailDistance ≤ s1.renderDistance)
    (hgate : shouldHaveAetheryte m s1 g = true)
    (hdist : distSq cam.position (gridToWorld m s1 g) ≤ s1.renderDistance ^ 2)
    (hfr : cam.frustum (gridToWorld m s1 g) = true)
    (hge : s1.detailDistance ^ 2 ≤ distSq cam.position (gridToWorld m s1 g))
    (hA0 : aethHas s1.loadedAetherytes g = false)
    (hS0 : starHas s1.distantStars g = false) :
    starHas (cleanupDistantObjects cam
      ((l₁ ++ g :: l₂).foldl (processCell m cam) s1)).distantStars g = true := by
  rw [List.foldl_append, List.foldl_cons]
  obtain ⟨M, hMg⟩ : ∃ M, List.foldl (processCell m cam) s1 l₁ = M := ⟨_, rfl⟩
  rw [hMg]
  have hsetM : sameSettings s1 M := hMg ▸ foldl_pc_sameSettings m cam l₁ s1
  have hInvM : Inv M := hMg ▸ foldl_pc_inv m cam l₁ s1 hInv
  obtain ⟨hA_M, hS_M⟩ :
      aethHas M.loadedAetherytes g = false ∧ starHas M.distantStars g = false :=
    hMg ▸ foldl_pc_norep_notin m cam l₁ s1 hnotin hA0 hS0
  have hgw : gridToWorld m M g = gridToWorld m s1 g := gridToWorld_congr m hsetM.2.2.1 g
  have hgateM : shouldHaveAetheryte m M g = true := by
    rw [shouldHave_congr m hsetM.2.2.2 g]
    exact hgate
  have hdistM : distSq cam.position (gridToWorld m M g) ≤ M.renderDistance ^ 2 := by
    rw [hgw, hsetM.1]
    exact hdist
  have hfrM : cam.frustum (gridToWorld m M g) = true := by
    rw [hgw]
    exact hfr
  have hgeM : ¬distSq cam.position (gridToWorld m M g) < M.detailDistance ^ 2 := by
    rw [hgw, hsetM.2.1]
    exact not_lt.2 hge
  have hcr := processCell_create_star m cam M g hgateM hdistM hfrM hgeM hA_M hS_M
  rw [hcr]
  have hst1 : mkStar g (gridToWorld m M g) ∈
      (M.distantStars ++ [mkStar g (gridToWorld m M g)]) :=
    List.mem_append_right _ (List.mem_singleton.2 rfl)
  have hInvM' : Inv { M with
      distantStars := M.distantStars ++ [mkStar g (gridToWorld m M g)] } := by
    have h := processCell_inv m cam M g hInvM
    rwa [hcr] at h
  obtain ⟨F, hF⟩ : ∃ F, List.foldl (processCell m cam)
      { M with distantStars := M.distantStars ++ [mkStar g (gridToWorld m M g)] } l₂ =
        F := ⟨_, rfl⟩
  rw [hF]
  obtain ⟨hstF, hAF⟩ := hF ▸ @foldl_pc_star_stable m cam g (mkStar g (gridToWorld m M g))
    rfl l₂ { M with distantStars := M.distantStars ++ [mkStar g (gridToWorld m M g)] }
    hst1 hA_M hgeM
  have hInvF : Inv F := hF ▸ foldl_pc_inv m cam l₂ _ hInvM'
  have hsetF : sameSettings s1 F :=
    sameSettings_trans (sameSettings_trans hsetM ⟨rfl, rfl, rfl, rfl⟩)
      (hF ▸ foldl_pc_sameSettings m cam l₂ _)
  rw [cleanup_stars_eq cam F hInvF.aethNodup, starHas_iff]
  refine List.mem_map.2
    ⟨mkStar g (gridToWorld m M g),
      List.mem_filter.2 ⟨List.mem_append_left _ hstF, ?_⟩, rfl⟩
  simp only [mkStar, Bool.not_eq_true', decide_eq_false_iff_not, not_lt]
  rw [hsetF.1, hgw]
  nlinarith

/-- C7: for every candidate cell of the tick's cube that passes the
placement gate, the render-distance test and the frustum test, on an
unthrottled tick from a well-formed state: if the distance is strictly below
`detailDistance` and the cell has no detailed object yet, the tick
instantiates the detailed representation and the cell ends the tick with no
distant stand-in; if the distance is at or above `detailDistance` and the
cell has neither representation, the tick instantiates the distant stand-in;
and in the latter distance regime a cell that already has a representation
is left untouched by its per-cell step. -/
theorem c7_upgrade_step (m : JsMath) (cam : Camera) (s : State) (g : GridPos)
    (hInv : Inv s) (h0 : 0 ≤ s.detailDistance)
    (hdr : s.detailDistance ≤ s.renderDistance)
    (h10 : (s.frameCount + 1) % 10 = 0)
    (hcell : g ∈ cubeCells
      (getGridPosition { s with frameCount := s.frameCount + 1 } cam.position)
      ⌈s.renderDistance / s.gridSize⌉)
    (hgate : shouldHaveAetheryte m s g = true)
    (hdist : distSq cam.position (gridToWorld m s g) ≤ s.renderDistance ^ 2)
    (hfr : cam.frustum (gridToWorld m s g) = true) :
    (distSq cam.position (gridToWorld m s g) < s.detailDistance ^ 2 →
      aethHas s.loadedAetherytes g = false →
      aethHas (updateProceduralAetherytes m cam s).loadedAetherytes g = true ∧
        starHas (updateProceduralAetherytes m cam s).distantStars g = false) ∧
      (s.detailDistance ^ 2 ≤ distSq cam.position (gridToWorld m s g) →
        aethHas s.loadedAetherytes g = false → starHas s.distantStars g = false →
        starHas (updateProceduralAetherytes m cam s).distantStars g = true) ∧
      (s.detailDistance ^ 2 ≤ distSq cam.position (gridToWorld m s g) →
        (aethHas s.loadedAetherytes g = true ∨ starHas s.distantStars g = true) →
        processCell m cam s g = s) := by
  refine ⟨?_, ?_, ?_⟩
  · intro hlt hA0
    rw [update_mod m cam s h10]
    obtain ⟨l₁, l₂, hsplit, hnotin⟩ := mem_first_split hcell
    rw [hsplit]
    exact fold_cleanup_upgrade m cam { s with frameCount := s.frameCount + 1 } l₁ l₂
      hnotin hInv h0 hdr hgate hdist hfr hlt hA0
  · intro hge hA0 hS0
    rw [update_mod m cam s h10]
    obtain ⟨l₁, l₂, hsplit, hnotin⟩ := mem_first_split hcell
    rw [hsplit]
    exact fold_cleanup_star m cam { s with frameCount := s.frameCount + 1 } l₁ l₂
      hnotin hInv h0 hdr hgate hdist hfr hge hA0 hS0
  · intro hge hrep
    have h4 := not_lt.2 hge
    rcases hrep with h | h
    · simp [processCell, hgate, hdist, hfr, h4, h]
    · simp [processCell, hgate, hdist, hfr, h4, h]

theorem c7_upgrade_step_witness :
    Inv s9 ∧ (s9.frameCount + 1) % 10 = 0 ∧
      aethHas (updateProceduralAetherytes mZero cam0 s9).loadedAetherytes
          ⟨0, 0, 0⟩ = true ∧
      starHas (updateProceduralAetherytes mZero cam0 s9).distantStars
        ⟨0, 0, 0⟩ = false := by
  refine ⟨by decide, by decide, ?_⟩
  have hc : getGridPosition { s9 with frameCount := s9.frameCount + 1 } cam0.position =
      ⟨0, 0, 0⟩ := by
    norm_num [getGridPosition, jsRound, cam0, s9, initState]
  have hr : ⌈s9.renderDistance / s9.gridSize⌉ = (3 : ℤ) := by
    norm_num [s9, initState]
  have hcell : (⟨0, 0, 0⟩ : GridPos) ∈ cubeCells
      (getGridPosition { s9 with frameCount := s9.frameCount + 1 } cam0.position)
      ⌈s9.renderDistance / s9.gridSize⌉ := by
    rw [hc, hr]
    decide
  exact (c7_upgrade_step mZero cam0 s9 ⟨0, 0, 0⟩ (by decide) (by decide) (by decide)
      (by decide) hcell
      (by norm_num [shouldHaveAetheryte, seededRandom, mZero, s9, initState])
      (by norm_num [distSq, gridToWorld, seededRandom, mZero, cam0, s9, initState])
      rfl).1
    (by norm_num [distSq, gridToWorld, seededRandom, mZero, cam0, s9, initState])
    rfl

end Aetherytes
